import Mathlib

/-!
Shallow embedding of the grid-sampling engine of the PeatlandSpatial
plugin (`src/processing/algs/peat_point_processing.py`,
`PeatDepthPoints.processAlgorithm`) together with the reprojection stage
shared with `peatland_code_processing.py`.

Machine integers of the Python code are modelled as `Int`; Python's `%`
with a positive modulus agrees with `Int.emod` (both return a result in
`[0, b)`), and Python's unbounded `while` loops are modelled by a
fuel-indexed unfolding together with a proof that the chosen fuel is
enough, which is exactly a termination argument for the loop.
-/

namespace PeatlandSpatial

/-- Spacing chosen from the `GRID50` boolean parameter
(`if grid50 == True: spacing = 50 else: spacing = 100`). -/
def spacingOf (grid50 : Bool) : Int :=
  if grid50 then 50 else 100

/-- The `roundup` lambda of `processAlgorithm`:
`roundup = lambda a, b: a if a % b == 0 else a + b - a % b`. -/
def roundup (a b : Int) : Int :=
  if a % b = 0 then a else a + b - a % b

/-- Fuel-indexed unfolding of one axis loop (`while x < end_x: ... x += spacing`):
the list of coordinates visited starting at `x`, stepping by `step`,
stopping as soon as `x < stop` fails (or the fuel runs out). -/
def gridAxis : Nat → Int → Int → Int → List Int
  | 0, _, _, _ => []
  | fuel + 1, x, stop, step =>
    if x < stop then x :: gridAxis fuel (x + step) stop step else []

/-- Fuel that suffices for the axis walk whenever the step is at least 1. -/
def axisFuel (x stop : Int) : Nat := (stop - x).toNat

/-- The complete walk of one axis loop. -/
def walkAxis (x stop step : Int) : List Int :=
  gridAxis (axisFuel x stop) x stop step

/-- The four bounding-box values of a feature after `int(...)` truncation
(lines 253-256 of `peat_point_processing.py`). -/
structure BBox where
  xmin : Int
  ymin : Int
  xmax : Int
  ymax : Int
deriving Repr, DecidableEq

/-- The candidate lattice points visited by the nested while loops, in visit
order: the outer loop walks `y` from `roundup(y_min, spacing)` up to `y_max`
(exclusive), and for each `y` the inner loop walks `x` from
`roundup(x_min, spacing)` up to `x_max` (exclusive). -/
def candidates (bbox : BBox) (spacing : Int) : List (Int × Int) :=
  (walkAxis (roundup bbox.ymin spacing) bbox.ymax spacing).flatMap
    fun y => (walkAxis (roundup bbox.xmin spacing) bbox.xmax spacing).map fun x => (x, y)

/-- The attributes of an emitted feature that the generation logic populates
(`record_id`, `easting`, `northing`, `spacing`); the descriptive fields stay
null and carry no generated content. -/
structure SamplePoint where
  record_id : Nat
  easting : Int
  northing : Int
  spacing : Int
deriving Repr, DecidableEq

/-- The spacing attribute written for an emitted point
(`100 if x % 100 == 0 and y % 100 == 0 else 50`, lines 280-283; the else
branch writes the literal `50`, not the configured spacing). -/
def tagSpacing (x y : Int) : Int :=
  if x % 100 = 0 ∧ y % 100 = 0 then 100 else 50

/-- The body of the nested loops: each candidate is tested with the strict
containment predicate `inside` (modelling `point.within(geom)`); on success a
SamplePoint carrying the running counter is emitted and the counter is
incremented (lines 275-290). -/
def scanEmit (inside : Int → Int → Bool) : List (Int × Int) → Nat → List SamplePoint
  | [], _ => []
  | (x, y) :: rest, count =>
    if inside x y then
      { record_id := count, easting := x, northing := y, spacing := tagSpacing x y }
        :: scanEmit inside rest (count + 1)
    else
      scanEmit inside rest count

/-- One feature's scan: every candidate of the bounding-box walk, filtered by
`within`, with the record counter starting at `count`. -/
def sampleFeature (inside : Int → Int → Bool) (spacing : Int) (bbox : BBox)
    (count : Nat) : List SamplePoint :=
  scanEmit inside (candidates bbox spacing) count

/-- One polygon feature as the sampler sees it: its strict containment test
and its truncated bounding box. -/
structure Feature where
  inside : Int → Int → Bool
  bbox : BBox

/-- The feature loop of `processAlgorithm`: the record counter is threaded
from one feature to the next, never reset. -/
def runFeatures (spacing : Int) : List Feature → Nat → List SamplePoint
  | [], _ => []
  | f :: rest, count =>
    let pts := sampleFeature f.inside spacing f.bbox count
    pts ++ runFeatures spacing rest (count + pts.length)

/-- A whole run: the counter starts at 1 (`count = 1`, line 243). -/
def sampleRun (grid50 : Bool) (feats : List Feature) : List SamplePoint :=
  runFeatures (spacingOf grid50) feats 1

/-! ### Basic facts about the axis walk and `roundup` -/

theorem spacingOf_pos (g : Bool) : 1 ≤ spacingOf g := by
  cases g <;> norm_num [spacingOf]

theorem mem_gridAxis {step : Int} (hs : 1 ≤ step) :
    ∀ (f : Nat) (x stop z : Int), z ∈ gridAxis f x stop step →
      x ≤ z ∧ z < stop ∧ step ∣ z - x := by
  intro f
  induction f with
  | zero => intro x stop z hz; simp [gridAxis] at hz
  | succ n ih =>
    intro x stop z hz
    simp only [gridAxis] at hz
    by_cases hlt : x < stop
    · rw [if_pos hlt] at hz
      rcases List.mem_cons.mp hz with h | h
      · subst h; exact ⟨le_refl _, hlt, by simp⟩
      · obtain ⟨h1, h2, h3⟩ := ih (x + step) stop z h
        refine ⟨by linarith, h2, ?_⟩
        have he : z - x = z - (x + step) + step := by ring
        rw [he]
        exact dvd_add h3 dvd_rfl
    · rw [if_neg hlt] at hz
      simp at hz

theorem mem_walkAxis {step : Int} (hs : 1 ≤ step) {x stop z : Int}
    (hz : z ∈ walkAxis x stop step) : x ≤ z ∧ z < stop ∧ step ∣ z - x :=
  mem_gridAxis hs _ x stop z hz

theorem gridAxis_of_stop {f : Nat} {x stop step : Int} (h : ¬x < stop) :
    gridAxis f x stop step = [] := by
  cases f <;> simp [gridAxis, h]

/-- With a step of at least 1, any fuel at least `axisFuel` produces the same
walk: the loop reaches its exit condition within the allotted fuel. -/
theorem gridAxis_fuel_irrelevant {stop step : Int} (hs : 1 ≤ step) :
    ∀ (f g : Nat) (x : Int), axisFuel x stop ≤ f → axisFuel x stop ≤ g →
      gridAxis f x stop step = gridAxis g x stop step := by
  intro f
  induction f with
  | zero =>
    intro g x hf _
    have hx : ¬x < stop := by
      simp only [axisFuel] at hf
      omega
    rw [gridAxis_of_stop hx, gridAxis_of_stop hx]
  | succ n ih =>
    intro g x hf hg
    by_cases hx : x < stop
    · cases g with
      | zero =>
        simp only [axisFuel] at hg
        omega
      | succ m =>
        simp only [gridAxis, if_pos hx]
        have hstep : axisFuel (x + step) stop ≤ n := by
          simp only [axisFuel] at hf ⊢
          omega
        have hstep' : axisFuel (x + step) stop ≤ m := by
          simp only [axisFuel] at hg ⊢
          omega
        rw [ih m (x + step) hstep hstep']
    · rw [gridAxis_of_stop hx, gridAxis_of_stop hx]

theorem gridAxis_eq_walkAxis {stop step : Int} (hs : 1 ≤ step) {f : Nat} {x : Int}
    (hf : axisFuel x stop ≤ f) : gridAxis f x stop step = walkAxis x stop step :=
  gridAxis_fuel_irrelevant hs f (axisFuel x stop) x hf (le_refl _)

theorem roundup_dvd (a b : Int) : b ∣ roundup a b := by
  unfold roundup
  split
  · exact Int.dvd_of_emod_eq_zero ‹a % b = 0›
  · have h : a % b = a - b * (a / b) := Int.emod_def a b
    have he : a + b - a % b = b * (a / b) + b := by rw [h]; ring
    rw [he]
    exact dvd_add (Dvd.intro _ rfl) dvd_rfl

theorem le_roundup (a b : Int) (hb : 0 < b) : a ≤ roundup a b := by
  unfold roundup
  split
  · exact le_refl a
  · have h := Int.emod_lt_of_pos a hb
    linarith

theorem roundup_lt (a b : Int) (hb : 0 < b) : roundup a b < a + b := by
  unfold roundup
  split
  · linarith
  · have h0 : 0 ≤ a % b := Int.emod_nonneg a (ne_of_gt hb)
    have hne : a % b ≠ 0 := by assumption
    have : 0 < a % b := lt_of_le_of_ne h0 (Ne.symm hne)
    linarith

theorem roundup_le_of_dvd (a b m : Int) (hb : 0 < b) (hm : b ∣ m) (ham : a ≤ m) :
    roundup a b ≤ m := by
  by_contra hlt
  push_neg at hlt
  have hdvd : b ∣ roundup a b - m := dvd_sub (roundup_dvd a b) hm
  have hpos : 0 < roundup a b - m := by linarith
  have hge : b ≤ roundup a b - m := Int.le_of_dvd hpos hdvd
  have := roundup_lt a b hb
  linarith

/-! ### Facts about emission -/

theorem mem_scanEmit (inside : Int → Int → Bool) :
    ∀ (l : List (Int × Int)) (c : Nat) (p : SamplePoint), p ∈ scanEmit inside l c →
      (p.easting, p.northing) ∈ l ∧ inside p.easting p.northing = true ∧
        p.spacing = tagSpacing p.easting p.northing := by
  intro l
  induction l with
  | nil => intro c p hp; simp [scanEmit] at hp
  | cons xy rest ih =>
    intro c p hp
    obtain ⟨x, y⟩ := xy
    simp only [scanEmit] at hp
    by_cases hin : inside x y = true
    · rw [if_pos hin] at hp
      rcases List.mem_cons.mp hp with h | h
      · subst h
        exact ⟨List.mem_cons_self _ _, hin, rfl⟩
      · obtain ⟨h1, h2, h3⟩ := ih (c + 1) p h
        exact ⟨List.mem_cons_of_mem _ h1, h2, h3⟩
    · rw [if_neg hin] at hp
      obtain ⟨h1, h2, h3⟩ := ih c p hp
      exact ⟨List.mem_cons_of_mem _ h1, h2, h3⟩

theorem mem_candidates {bbox : BBox} {s : Int} {q : Int × Int}
    (h : q ∈ candidates bbox s) :
    q.1 ∈ walkAxis (roundup bbox.xmin s) bbox.xmax s ∧
      q.2 ∈ walkAxis (roundup bbox.ymin s) bbox.ymax s := by
  unfold candidates at h
  rcases List.mem_flatMap.mp h with ⟨y, hy, hq⟩
  rcases List.mem_map.mp hq with ⟨x, hx, rfl⟩
  exact ⟨hx, hy⟩

/-- Every candidate coordinate is an absolute multiple of the spacing: the
walk starts at `roundup` of the bbox minimum (a multiple of the spacing) and
advances by the spacing. -/
theorem candidates_dvd {bbox : BBox} {s : Int} (hs : 1 ≤ s) {q : Int × Int}
    (h : q ∈ candidates bbox s) : s ∣ q.1 ∧ s ∣ q.2 := by
  obtain ⟨hx, hy⟩ := mem_candidates h
  obtain ⟨_, _, hdx⟩ := mem_walkAxis hs hx
  obtain ⟨_, _, hdy⟩ := mem_walkAxis hs hy
  constructor
  · have : q.1 = q.1 - roundup bbox.xmin s + roundup bbox.xmin s := by ring
    rw [this]
    exact dvd_add hdx (roundup_dvd _ _)
  · have : q.2 = q.2 - roundup bbox.ymin s + roundup bbox.ymin s := by ring
    rw [this]
    exact dvd_add hdy (roundup_dvd _ _)

/-- The record ids emitted from counter value `c` are exactly
`c, c+1, ...`, one per emitted point. -/
theorem scanEmit_ids (inside : Int → Int → Bool) :
    ∀ (l : List (Int × Int)) (c : Nat),
      (scanEmit inside l c).map (fun p => p.record_id) =
        List.range' c (scanEmit inside l c).length := by
  intro l
  induction l with
  | nil => intro c; simp [scanEmit]
  | cons xy rest ih =>
    intro c
    obtain ⟨x, y⟩ := xy
    simp only [scanEmit]
    by_cases hin : inside x y = true
    · rw [if_pos hin]
      simp only [List.map_cons, List.length_cons, ih (c + 1)]
      rw [List.range'_succ]
    · rw [if_neg hin]
      exact ih c

theorem runFeatures_ids (s : Int) :
    ∀ (feats : List Feature) (c : Nat),
      (runFeatures s feats c).map (fun p => p.record_id) =
        List.range' c (runFeatures s feats c).length := by
  intro feats
  induction feats with
  | nil => intro c; simp [runFeatures]
  | cons f rest ih =>
    intro c
    simp only [runFeatures, sampleFeature, List.map_append, List.length_append]
    rw [scanEmit_ids, ih, List.range'_append_1]
    congr 1
    omega

/-! ### The concrete square scenario -/

/-- Modelled from the spec: the external geometry engine's strict interior
containment test (`point.within(geom)` is supplied by QGIS/GEOS and is not
part of this repository) for the axis-aligned square polygon with corners
(0,0) and (150,150): a point is strictly inside iff both coordinates are
strictly between 0 and 150. -/
def squareInside (x y : Int) : Bool :=
  (0 < x && x < 150) && (0 < y && y < 150)

/-- The truncated bounding box of the square (0,0)-(150,150). -/
def squareBBox : BBox := ⟨0, 0, 150, 150⟩

/-- The square (0,0)-(150,150) as a feature of the run. -/
def squareFeature : Feature := ⟨squareInside, squareBBox⟩

/-! ### Reprojection stage and `processAlgorithm` control flow -/

/-- The geometry content of a layer: the coordinates of its features, which
the reprojection stage may rewrite. -/
structure Geometry where
  coords : List (Int × Int)
deriving Repr, DecidableEq

/-- A coordinate reference system wrapper object as Python sees it: an
object identity together with the EPSG code it denotes.  `source.sourceCrs()`
returns a fresh wrapper object, so its identity differs from the identity of
the CRS object held by the freshly built peat layer. -/
structure CrsObj where
  objId : Nat
  epsg : Int
deriving Repr, DecidableEq

/-- The peat layer's CRS object built inside `generate_peat_layer`
(`crs.createFromId(27700)`): EPSG 27700 with the layer's own object
identity. -/
def peatCrsObj : CrsObj := ⟨0, 27700⟩

/-- The parts of the resolved input vector layer the algorithm reads: its
CRS wrapper object, its geometry and its polygon features. -/
structure SourceLayer where
  crs : CrsObj
  geom : Geometry
  features : List Feature

/-- Modelled from the spec: `qgis:reprojectlayer` (an external QGIS
algorithm, not part of this repository) rewrites a layer's coordinates from
its source CRS into EPSG:27700; `transform` is the coordinate transform of
the external engine, keyed by the source EPSG code.  The output is a fresh
memory layer, hence a fresh CRS wrapper object. -/
def reprojectlayer (transform : Int → Geometry → Geometry)
    (layer : SourceLayer) : SourceLayer :=
  { layer with
    crs := ⟨layer.crs.objId + 1, 27700⟩
    geom := transform layer.crs.epsg layer.geom }

/-- The reprojection stage (lines 191-203 of `peat_point_processing.py`):
`if source_crs is not peat_crs` compares Python object identity between the
wrapper returned by `sourceCrs()` and the peat layer's own CRS object, and
runs `qgis:reprojectlayer` when the two objects are distinct. -/
def reprojectStage (transform : Int → Geometry → Geometry)
    (source : SourceLayer) : SourceLayer :=
  if source.crs.objId ≠ peatCrsObj.objId then reprojectlayer transform source
  else source

/-- The ways `processAlgorithm` can abort. -/
inductive RunError where
  /-- Python `AttributeError`: `source.sourceCrs()` evaluated with
  `source = None` (line 191). -/
  | attributeError
  /-- `QgsProcessingException(self.invalidSourceError(...))` (line 215). -/
  | invalidSource
  /-- `QgsProcessingException(self.invalidSinkError(...))` (line 236). -/
  | invalidSink
deriving Repr, DecidableEq

/-- The control flow of `PeatDepthPoints.processAlgorithm`, statement for
statement: resolve the source parameter (possibly `None`), read
`source.sourceCrs()` — which on a `None` source raises `AttributeError`
before anything else — reproject, then run the `source is None` guard of
line 214 (at that point `source` is the reprojection output, never `None`),
then the sink guard, then the feature loop. -/
def processAlgorithm (transform : Int → Geometry → Geometry)
    (sourceParam : Option SourceLayer) (sinkParam : Option Unit)
    (grid50 : Bool) : Except RunError (List SamplePoint) :=
  match sourceParam with
  | none => Except.error RunError.attributeError
  | some src =>
    let reprojected : Option SourceLayer := some (reprojectStage transform src)
    match reprojected with
    | none => Except.error RunError.invalidSource
    | some src2 =>
      match sinkParam with
      | none => Except.error RunError.invalidSink
      | some _ => Except.ok (runFeatures (spacingOf grid50) src2.features 1)

/-- Modelled from the spec: a zero-area polygon has an empty strict
interior, so the external engine's `within` test rejects every point. -/
def alwaysOutside : Int → Int → Bool := fun _ _ => false

/-- A coordinate transform of the external engine that is the identity for
every source CRS; used to instantiate the reprojection model on concrete
inputs. -/
def idTransform : Int → Geometry → Geometry := fun _ geo => geo

/-! ### The claims -/

/-- C1: every SamplePoint emitted by the grid sampler passes the strict
containment test (`point.within(geom)`), and both of its coordinates are
absolute multiples of the configured spacing — the lattice is anchored at
the global origin (0,0), not at the polygon's bounding box. -/
theorem emitted_strictly_inside_on_lattice (g : Bool) (inside : Int → Int → Bool)
    (bbox : BBox) (c : Nat) (p : SamplePoint)
    (hp : p ∈ sampleFeature inside (spacingOf g) bbox c) :
    inside p.easting p.northing = true ∧
      spacingOf g ∣ p.easting ∧ spacingOf g ∣ p.northing := by
  obtain ⟨hmem, hin, _⟩ := mem_scanEmit inside _ c p hp
  obtain ⟨hdx, hdy⟩ := candidates_dvd (spacingOf_pos g) hmem
  exact ⟨hin, hdx, hdy⟩

/-- Witness for C1: the point (50,50) emitted on the square
(0,0)-(150,150) at configured spacing 50. -/
theorem emitted_strictly_inside_on_lattice_witness :
    squareInside 50 50 = true ∧ spacingOf true ∣ (50 : Int) ∧
      spacingOf true ∣ (50 : Int) :=
  emitted_strictly_inside_on_lattice true squareInside squareBBox 1
    ⟨1, 50, 50, 50⟩ (by decide)

/-- C2: an emitted point's spacing attribute is 100 exactly when both of its
coordinates are multiples of 100, and otherwise equals the configured
spacing; this holds for both configured spacings (50 and 100). -/
theorem spacing_classification (g : Bool) (inside : Int → Int → Bool)
    (bbox : BBox) (c : Nat) (p : SamplePoint)
    (hp : p ∈ sampleFeature inside (spacingOf g) bbox c) :
    (p.spacing = 100 ↔ p.easting % 100 = 0 ∧ p.northing % 100 = 0) ∧
      (¬(p.easting % 100 = 0 ∧ p.northing % 100 = 0) → p.spacing = spacingOf g) := by
  obtain ⟨hmem, _, htag⟩ := mem_scanEmit inside _ c p hp
  by_cases hc : p.easting % 100 = 0 ∧ p.northing % 100 = 0
  · rw [htag]
    unfold tagSpacing
    rw [if_pos hc]
    exact ⟨⟨fun _ => hc, fun _ => rfl⟩, fun hn => absurd hc hn⟩
  · cases g with
    | false =>
      exfalso
      obtain ⟨hdx, hdy⟩ := candidates_dvd (spacingOf_pos false) hmem
      have hdx100 : (100 : Int) ∣ p.easting := by simpa [spacingOf] using hdx
      have hdy100 : (100 : Int) ∣ p.northing := by simpa [spacingOf] using hdy
      exact hc ⟨Int.emod_eq_zero_of_dvd hdx100, Int.emod_eq_zero_of_dvd hdy100⟩
    | true =>
      rw [htag]
      unfold tagSpacing
      rw [if_neg hc]
      refine ⟨⟨fun h => absurd h (by norm_num), fun h => absurd h hc⟩, fun _ => ?_⟩
      simp [spacingOf]

/-- Witness for C2: the point (100,100) emitted on the square
(0,0)-(150,150) at configured spacing 50, tagged 100. -/
theorem spacing_classification_witness :
    ((100 : Int) = 100 ↔ (100 : Int) % 100 = 0 ∧ (100 : Int) % 100 = 0) ∧
      (¬((100 : Int) % 100 = 0 ∧ (100 : Int) % 100 = 0) →
        (100 : Int) = spacingOf true) :=
  spacing_classification true squareInside squareBBox 1
    ⟨4, 100, 100, 100⟩ (by decide)

/-- C3 counterexample: with spacing 50 on the square (0,0)-(150,150) the
run does not emit exactly the two points (50,50) and (100,100). -/
theorem scenarioB_two_points_refuted :
    ¬((sampleRun true [squareFeature]).map (fun p => (p.easting, p.northing)) =
      [(50, 50), (100, 100)]) := by
  decide

/-- C3 amended: with spacing 50 on the square (0,0)-(150,150) the run emits
exactly four points, (50,50), (100,50), (50,100), (100,100) in that order
with record ids 1-4; only (100,100) is tagged spacing=100, the other three
are tagged spacing=50. -/
theorem scenarioB_emits_four_points :
    sampleRun true [squareFeature] =
      [⟨1, 50, 50, 50⟩, ⟨2, 100, 50, 50⟩, ⟨3, 50, 100, 50⟩,
        ⟨4, 100, 100, 100⟩] := by
  decide

/-- C4: for every integer value and every strictly positive spacing,
`roundup` keeps values that are already multiples, otherwise returns
`value + spacing - value % spacing`; equivalently it returns the least
multiple of the spacing that is greater than or equal to the value. -/
theorem roundup_least_multiple (a b : Int) (hb : 0 < b) :
    (a % b = 0 → roundup a b = a) ∧
      (a % b ≠ 0 → roundup a b = a + b - a % b) ∧
      b ∣ roundup a b ∧ a ≤ roundup a b ∧
      ∀ m : Int, b ∣ m → a ≤ m → roundup a b ≤ m := by
  refine ⟨?_, ?_, roundup_dvd a b, le_roundup a b hb,
    fun m hm ham => roundup_le_of_dvd a b m hb hm ham⟩
  · intro h
    simp [roundup, h]
  · intro h
    simp [roundup, h]

/-- Witness for C4 at value 130 and spacing 50: `roundup` yields
130 + 50 - (130 % 50), a multiple of 50, at least 130 and at most the
multiple 150. -/
theorem roundup_least_multiple_witness :
    roundup 130 50 = 130 + 50 - 130 % 50 ∧ (50 : Int) ∣ roundup 130 50 ∧
      (130 : Int) ≤ roundup 130 50 ∧ roundup 130 50 ≤ 150 := by
  have h := roundup_least_multiple 130 50 (by norm_num)
  exact ⟨h.2.1 (by decide), h.2.2.1, h.2.2.2.1,
    h.2.2.2.2 150 (by decide) (by decide)⟩

/-- C5: no emitted point has its easting equal to the truncated bbox xMax
nor its northing equal to the truncated yMax: both loops use an exclusive
upper bound, so every emitted coordinate is strictly below the maximum. -/
theorem emitted_below_bbox_max (g : Bool) (inside : Int → Int → Bool)
    (bbox : BBox) (c : Nat) (p : SamplePoint)
    (hp : p ∈ sampleFeature inside (spacingOf g) bbox c) :
    p.easting ≠ bbox.xmax ∧ p.northing ≠ bbox.ymax := by
  obtain ⟨hmem, _, _⟩ := mem_scanEmit inside _ c p hp
  obtain ⟨hx, hy⟩ := mem_candidates hmem
  obtain ⟨_, hx2, _⟩ := mem_walkAxis (spacingOf_pos g) hx
  obtain ⟨_, hy2, _⟩ := mem_walkAxis (spacingOf_pos g) hy
  exact ⟨ne_of_lt hx2, ne_of_lt hy2⟩

/-- Witness for C5: the point (100,100) emitted on the square
(0,0)-(150,150) at configured spacing 50 touches neither 150 bound. -/
theorem emitted_below_bbox_max_witness :
    (100 : Int) ≠ squareBBox.xmax ∧ (100 : Int) ≠ squareBBox.ymax :=
  emitted_below_bbox_max true squareInside squareBBox 1
    ⟨4, 100, 100, 100⟩ (by decide)

/-- C6: the record ids of one run form exactly the sequence 1, 2, 3, ... —
strictly increasing, gapless — with the counter threaded across all
features of the run, never reset. -/
theorem record_ids_consecutive (g : Bool) (feats : List Feature) :
    (sampleRun g feats).map (fun p => p.record_id) =
      List.range' 1 (sampleRun g feats).length := by
  unfold sampleRun
  exact runFeatures_ids (spacingOf g) feats 1

/-- C7: when the source layer's CRS already denotes EPSG:27700, the geometry
reaching the sampler has coordinates equal to the input: whichever branch
the identity comparison takes, the stage is the identity on coordinates,
because the external transform from EPSG:27700 to itself is the identity. -/
theorem reprojectStage_identity_on_bng (transform : Int → Geometry → Geometry)
    (source : SourceLayer) (hcrs : source.crs.epsg = 27700)
    (hT : ∀ geo, transform 27700 geo = geo) :
    (reprojectStage transform source).geom = source.geom := by
  unfold reprojectStage reprojectlayer
  split
  · simp only [hcrs, hT]
  · rfl

/-- Witness for C7: a layer already in EPSG:27700 keeps its coordinates. -/
theorem reprojectStage_identity_on_bng_witness :
    (reprojectStage idTransform ⟨⟨1, 27700⟩, ⟨[(12, 34)]⟩, []⟩).geom =
      Geometry.mk [(12, 34)] :=
  reprojectStage_identity_on_bng idTransform ⟨⟨1, 27700⟩, ⟨[(12, 34)]⟩, []⟩
    rfl (fun _ => rfl)

/-- C8: the lattice walk terminates — any fuel at least `axisFuel` already
yields the complete walk, so the loop reaches its exit condition — and a
degenerate polygon (empty strict interior, or a bounding box collapsed to a
line or point in either axis) yields no points. -/
theorem sampler_terminates_and_degenerate_empty (s x stop : Int) (f : Nat)
    (inside : Int → Int → Bool) (bbox : BBox) (c : Nat)
    (hs : 1 ≤ s) (hf : axisFuel x stop ≤ f)
    (hdeg : (∀ a b : Int, inside a b = false) ∨ bbox.xmax ≤ bbox.xmin ∨
      bbox.ymax ≤ bbox.ymin) :
    gridAxis f x stop s = walkAxis x stop s ∧
      sampleFeature inside s bbox c = [] := by
  refine ⟨gridAxis_eq_walkAxis hs hf, ?_⟩
  rcases hdeg with hfalse | hx | hy
  · have hnil : ∀ (l : List (Int × Int)) (c : Nat), scanEmit inside l c = [] := by
      intro l
      induction l with
      | nil => intro c; rfl
      | cons xy rest ih =>
        intro c
        obtain ⟨a, b⟩ := xy
        simp [scanEmit, hfalse a b, ih]
    exact hnil _ c
  · have hwx : walkAxis (roundup bbox.xmin s) bbox.xmax s = [] := by
      apply gridAxis_of_stop
      have hru := le_roundup bbox.xmin s (by linarith)
      omega
    have hcand : candidates bbox s = [] := by
      unfold candidates
      rw [hwx]
      simp
    unfold sampleFeature
    rw [hcand]
    rfl
  · have hwy : walkAxis (roundup bbox.ymin s) bbox.ymax s = [] := by
      apply gridAxis_of_stop
      have hru := le_roundup bbox.ymin s (by linarith)
      omega
    have hcand : candidates bbox s = [] := by
      unfold candidates
      rw [hwy]
      simp
    unfold sampleFeature
    rw [hcand]
    rfl

/-- Witness for C8: a zero-area polygon (empty interior) inside the bbox of
the square scenario yields the complete walk and an empty emission. -/
theorem sampler_terminates_and_degenerate_empty_witness :
    gridAxis 200 0 150 50 = walkAxis 0 150 50 ∧
      sampleFeature alwaysOutside 50 ⟨0, 0, 150, 150⟩ 1 = [] :=
  sampler_terminates_and_degenerate_empty 50 0 150 200 alwaysOutside
    ⟨0, 0, 150, 150⟩ 1 (by norm_num) (by decide) (Or.inl fun _ _ => rfl)

/-- C9 (the code evaluated at the failing input): with a `None` source the
run aborts with the Python `AttributeError` raised by `source.sourceCrs()`
at line 191 — not with the user-facing invalid-source processing exception
of line 215 — and no SamplePoint is emitted. -/
theorem none_source_aborts_with_attribute_error :
    processAlgorithm idTransform none (some ()) true =
        Except.error RunError.attributeError ∧
      RunError.attributeError ≠ RunError.invalidSource :=
  ⟨rfl, by decide⟩

/-- C10: with configured spacing 100 every candidate the loops test has both
coordinates divisible by 100, so the else branch writing the literal 50 is
unreachable and every emitted point carries spacing 100. -/
theorem grid100_else_branch_unreachable (inside : Int → Int → Bool)
    (bbox : BBox) (c : Nat) (q : Int × Int) (p : SamplePoint)
    (hq : q ∈ candidates bbox (spacingOf false))
    (hp : p ∈ sampleFeature inside (spacingOf false) bbox c) :
    (q.1 % 100 = 0 ∧ q.2 % 100 = 0) ∧ p.spacing = 100 := by
  obtain ⟨hqx, hqy⟩ := candidates_dvd (spacingOf_pos false) hq
  have hqx100 : (100 : Int) ∣ q.1 := by simpa [spacingOf] using hqx
  have hqy100 : (100 : Int) ∣ q.2 := by simpa [spacingOf] using hqy
  obtain ⟨hmem, _, htag⟩ := mem_scanEmit inside _ c p hp
  obtain ⟨hpx, hpy⟩ := candidates_dvd (spacingOf_pos false) hmem
  have hpx100 : (100 : Int) ∣ p.easting := by simpa [spacingOf] using hpx
  have hpy100 : (100 : Int) ∣ p.northing := by simpa [spacingOf] using hpy
  refine ⟨⟨Int.emod_eq_zero_of_dvd hqx100, Int.emod_eq_zero_of_dvd hqy100⟩, ?_⟩
  rw [htag]
  unfold tagSpacing
  rw [if_pos ⟨Int.emod_eq_zero_of_dvd hpx100, Int.emod_eq_zero_of_dvd hpy100⟩]

/-- Witness for C10: the candidate (100,100) of the square scenario at
spacing 100 and the single point emitted there. -/
theorem grid100_else_branch_unreachable_witness :
    (((100 : Int), (100 : Int)).1 % 100 = 0 ∧
        ((100 : Int), (100 : Int)).2 % 100 = 0) ∧
      (SamplePoint.mk 1 100 100 100).spacing = 100 :=
  grid100_else_branch_unreachable squareInside squareBBox 1
    (100, 100) ⟨1, 100, 100, 100⟩ (by decide) (by decide)

end PeatlandSpatial
